import Mathlib

/-!
Verification development for the `causal_tools` module: a
difference-in-differences (DiD) estimator, a quarterly event-study
estimator, and a coefficient plotter.  The tabular data model and the
three functions are embedded shallowly; the external OLS solver and the
rendering backend are modelled by records capturing exactly the
arguments the module hands to them (regressor names, covariance type,
estimation sample, chart categories and tick labels).
-/

namespace CausalTools

/-- Covariance type of a fitted OLS model: classical (homoskedastic)
standard errors or HC3 heteroskedasticity-robust ones. -/
inductive CovType where
  | classical
  | hc3
deriving DecidableEq, Repr

/-! ## DiD data model

A row of the panel dataset handed to `did`.  Every cell is optional:
`none` models a missing value (NaN/NaT).  `controls` are the control
columns named by `vars_control`, in that order; `others` are all the
remaining columns of the table, which `did` never uses except in its
whole-table `dropna()`. -/

structure Row where
  outcome : Option ℚ
  treatVal : Option String
  timeVal : Option ℤ
  controls : List (Option ℚ)
  others : List (Option ℚ)
deriving DecidableEq, Repr

/-- A cell-by-cell completeness check: `true` iff no cell of the row is
missing, in any column of the table.  `df.dropna()` keeps exactly these
rows. -/
def rowComplete (r : Row) : Bool :=
  r.outcome.isSome && r.treatVal.isSome && r.timeVal.isSome &&
    r.controls.all Option.isSome && r.others.all Option.isSome

/-- `df.dropna()` — drop every row containing a missing value in any
column of the table. -/
def dropna (df : List Row) : List Row :=
  df.filter rowComplete

/-- The `post` column: `df_did["post"] = 0; df_did.loc[df_did[var_time] >= post, "post"] = 1`.
A missing time compares as false in pandas, so the cell stays `0`. -/
def postCol (cutoff : ℤ) (r : Row) : ℤ :=
  match r.timeVal with
  | some t => if t ≥ cutoff then 1 else 0
  | none => 0

/-- The `treatment` column: `df_did["treatment"] = 0;
df_did.loc[df_did[var_treat] == treat, "treatment"] = 1`. -/
def treatmentCol (treat : String) (r : Row) : ℤ :=
  match r.treatVal with
  | some v => if v = treat then 1 else 0
  | none => 0

/-- The interaction column: `df_did["post_treat"] = df_did["treatment"] * df_did["post"]`. -/
def postTreatCol (cutoff : ℤ) (treat : String) (r : Row) : ℤ :=
  treatmentCol treat r * postCol cutoff r

/-- What `did` passes to the external OLS routine: the regressor names
of `sm.add_constant(df_did[X])`, the covariance type of the final
`.fit(...)`, the estimation sample `df_did`, and the derived indicator
columns on that sample. -/
structure DidFit where
  regressors : List String
  covType : CovType
  sample : List Row
  postVals : List ℤ
  treatmentVals : List ℤ
  postTreatVals : List ℤ
deriving DecidableEq, Repr

/-- The one failure mode of `did` itself: on the path where neither
`if vars_control is not None:` nor `if hc3_se:` runs, the local `lm`
is never assigned and `return(lm)` raises `UnboundLocalError`. -/
inductive DidError where
  | unboundLocal
deriving DecidableEq, Repr

/-- Shallow embedding of `did`.  Mirrors the source line by line:
`dropna`, the three derived columns, `X = ["treatment","post","post_treat"]`
extended with `vars_control` when given, a classical fit when controls
are given, an HC3 fit (on the same `X`) when `hc3_se` is true, and the
final `return(lm)` which fails when no fit ever ran. -/
def did (df : List Row) (treat : String) (cutoff : ℤ)
    (vars_control : Option (List String)) (hc3_se : Bool) :
    Except DidError DidFit :=
  let df_did := dropna df
  let postVals := df_did.map (postCol cutoff)
  let treatmentVals := df_did.map (treatmentCol treat)
  let postTreatVals := df_did.map (postTreatCol cutoff treat)
  let X := ["treatment", "post", "post_treat"] ++ vars_control.getD []
  let lm1 : Option DidFit :=
    match vars_control with
    | some _ =>
        some ⟨"const" :: X, CovType.classical, df_did,
          postVals, treatmentVals, postTreatVals⟩
    | none => none
  let lm2 : Option DidFit :=
    if hc3_se then
      some ⟨"const" :: X, CovType.hc3, df_did,
        postVals, treatmentVals, postTreatVals⟩
    else lm1
  match lm2 with
  | some lm => Except.ok lm
  | none => Except.error DidError.unboundLocal

/-- Spec-side predicate: the row has no missing value in any column of
the table. -/
def NoMissing (r : Row) : Prop :=
  r.outcome ≠ none ∧ r.treatVal ≠ none ∧ r.timeVal ≠ none ∧
    (∀ c ∈ r.controls, c ≠ none) ∧ (∀ c ∈ r.others, c ≠ none)

instance (r : Row) : Decidable (NoMissing r) := by
  unfold NoMissing
  infer_instance

/-! ## Event-study data model

`event_study_q` receives a dataframe whose NA handling is left to the
caller, so cells are plain values.  Only the treatment label and the
timestamp's year and month take part in the column construction. -/

structure EsRow where
  outcome : ℚ
  treatVal : String
  year : ℕ
  month : ℕ
deriving DecidableEq, Repr

/-- `df_ew[var_time].dt.strftime("%m")` — the month as a zero-padded
two-digit string. -/
def monthStr (m : ℕ) : String :=
  if m < 10 then "0" ++ toString m else toString m

/-- Lexicographic order on character sequences, comparing code points
position by position — Python's `<` on strings. -/
def charListLt : List Char → List Char → Bool
  | [], [] => false
  | [], _ :: _ => true
  | _ :: _, [] => false
  | a :: as, b :: bs =>
    if a < b then true else if b < a then false else charListLt as bs

/-- Python string comparison `a < b`. -/
def pyStrLt (a b : String) : Bool :=
  charListLt a.data b.data

/-- The `np.where` cascade of string comparisons against `"04"`, `"07"`,
`"10"` assigning the quarter digit. -/
def quarterDigit (m : ℕ) : String :=
  if pyStrLt (monthStr m) "04" then "1"
  else if pyStrLt (monthStr m) "07" then "2"
  else if pyStrLt (monthStr m) "10" then "3"
  else "4"

/-- `df_ew["quarter"] = df_ew[var_time].dt.strftime("%Y") + df_ew["quarter"]` —
the quarter bucket label, year string followed by the quarter digit. -/
def quarterLabel (y m : ℕ) : String :=
  toString y ++ quarterDigit m

/-- The sequence of quarter labels of the dataframe, one per row, in
row order. -/
def labelsOf (df : List EsRow) : List String :=
  df.map (fun r => quarterLabel r.year r.month)

/-- `Series.unique()` — the distinct values in order of appearance,
modelled operationally as a left fold keeping first occurrences. -/
def pdUnique (l : List String) : List String :=
  l.foldl (fun seen x => if x ∈ seen then seen else seen ++ [x]) []

/-- Insert a string into a list sorted by code-point order. -/
def insertSorted (x : String) : List String → List String
  | [] => [x]
  | y :: ys => if pyStrLt x y then x :: y :: ys else y :: insertSorted x ys

/-- Sort a list of strings ascending by code-point order. -/
def sortStrings : List String → List String
  | [] => []
  | x :: xs => insertSorted x (sortStrings xs)

/-- `pd.get_dummies` encodes the column as a categorical whose levels
are the distinct values in sorted order; the dummy columns appear in
that order. -/
def dummyLevels (l : List String) : List String :=
  sortStrings (pdUnique l)

/-- The dummy column name `"quarter_" + label`. -/
def qcol (l : String) : String := "quarter_" ++ l

/-- The interaction column name `"inter_" + label`. -/
def icol (l : String) : String := "inter_" ++ l

/-- Position of the first occurrence of a column label. -/
def idxOf : List String → String → ℕ
  | [], _ => 0
  | c :: cs, a => if c = a then 0 else idxOf cs a + 1

/-- `df.loc[:, a:b]` on the columns: label-based slicing, inclusive of
both endpoints; a missing endpoint label raises `KeyError` (`none`). -/
def locSpan (cols : List String) (a b : String) : Option (List String) :=
  if a ∈ cols ∧ b ∈ cols then
    some ((cols.take (idxOf cols b + 1)).drop (idxOf cols a))
  else none

/-- What `event_study_q` hands to the external OLS routine: regressor
names (constant first, then the joined control columns when given, then
the contiguous `"treatment" : "inter_<quarterlist[-1]>"` span) and the
covariance type of the final fit. -/
structure EsFit where
  regressors : List String
  covType : CovType
deriving DecidableEq, Repr

/-- Failure modes of `event_study_q`: `KeyError` from dropping a
missing baseline column, `IndexError` from `quarterlist[-1]` on an
empty quarter list, `KeyError` from the `.loc` column slice whose stop
label is absent. -/
inductive EsError where
  | dropMissing
  | indexError
  | spanMissing
deriving DecidableEq, Repr

/-- Shallow embedding of `event_study_q`.  The dataframe's columns are
`orig` (the caller's columns, in order), then `month` and `treatment`
appended by assignment, then the one-hot `quarter_<level>` columns in
sorted level order, then the `inter_<label>` columns in `quarterlist`
order.  Dropping the baseline pair fails if either column is missing;
`quarterlist[-1]` fails on an empty list; the `.loc` span fails if its
stop label was dropped. -/
def event_study_q (orig : List String) (df : List EsRow)
    (treat baseline : String) (vars_control : Option (List String))
    (hc3_se : Bool) : Except EsError (EsFit × List String) :=
  let labels := labelsOf df
  let quarterlist := pdUnique labels
  let cols := orig ++ ["month", "treatment"] ++
    (dummyLevels labels).map qcol ++ quarterlist.map icol
  if (qcol baseline ∈ cols) ∧ (icol baseline ∈ cols) then
    let cols2 := cols.filter (fun c => c ≠ qcol baseline ∧ c ≠ icol baseline)
    match quarterlist.getLast? with
    | none => Except.error EsError.indexError
    | some lastq =>
      match locSpan cols2 "treatment" (icol lastq) with
      | none => Except.error EsError.spanMissing
      | some span =>
        Except.ok
          (⟨"const" :: (vars_control.getD [] ++ span),
            if hc3_se then CovType.hc3 else CovType.classical⟩,
           quarterlist)
  else Except.error EsError.dropMissing

/-! ## Coefficient plotter -/

/-- One coefficient of a fitted model as the plotter reads it: its
regressor name, the parameter estimate, and the lower confidence
bound from `lm.conf_int()[0]`.  The first entry is the intercept. -/
structure Coef where
  name : String
  coef : ℚ
  ciLower : ℚ
deriving DecidableEq, Repr

/-- Python `str.startswith` on one alternative: character-sequence
test. -/
def pyStartsWith (s p : String) : Bool :=
  p.data.isPrefixOf s.data

/-- `str.startswith` applied to a tuple of alternatives (a single
string is the one-element case). -/
def startMatches (start : List String) (s : String) : Bool :=
  start.any (pyStartsWith s)

/-- The rendered chart, as handed to the plotting backend: one category
per selected coefficient with its point estimate and whisker half-width,
and the x tick labels after the final `set_xticklabels` call. -/
structure Chart where
  vars : List String
  coefs : List ℚ
  errs : List ℚ
  ticklabels : List String
  xlab : String
  ylab : String
deriving DecidableEq, Repr

/-- Shallow embedding of `coefplot`.  `error = lm.params - lm.conf_int()[0]`;
the dataframe `c_df` takes `values[1:]` (dropping the intercept row);
rows are filtered by `var.str.startswith(start)` (default `""` is the
single empty alternative, matching everything); the bar plot uses the
`var` names as categories; `set_xticklabels(xticklab)` then fixes the
tick labels, a label beyond the supplied list rendering as empty (the
default `xticklab=""` iterates to no labels at all). -/
def coefplot (lm : List Coef) (xticklab : List String)
    (xlab ylab : String) (start : List String) : Chart :=
  let entries := lm.map (fun c => (c.name, c.coef, c.coef - c.ciLower))
  let c_df := entries.drop 1
  let sel := c_df.filter (fun e => startMatches start e.1)
  { vars := sel.map (fun e => e.1)
    coefs := sel.map (fun e => e.2.1)
    errs := sel.map (fun e => e.2.2)
    ticklabels := (List.range sel.length).map (fun i => xticklab.getD i "")
    xlab := xlab
    ylab := ylab }

/-- Helper for the spec-side quarter list: emit each label not already
seen, in row order. -/
def foAux (seen : List String) : List String → List String
  | [] => []
  | x :: xs => if x ∈ seen then foAux seen xs else x :: foAux (x :: seen) xs

/-- Spec-side description of the quarter list: the distinct labels in
order of first occurrence in row order. -/
def firstOccurrences (l : List String) : List String :=
  foAux [] l

/-- Tidiness of the caller's column names: none of them collides with a
column `event_study_q` itself creates (`month`, `treatment`, any
`quarter_<label>` or `inter_<label>`). -/
def FreshName (c : String) : Prop :=
  c ≠ "treatment" ∧ c ≠ "month" ∧ (∀ l, c ≠ qcol l) ∧ (∀ l, c ≠ icol l)

/-- Spec-side quarter digit, straight from the spec's words: months
01–03 give quarter 1, 04–06 give quarter 2, 07–09 give quarter 3,
10–12 give quarter 4. -/
def quarterDigitSpec (m : ℕ) : String :=
  if m ≤ 3 then "1" else if m ≤ 6 then "2" else if m ≤ 9 then "3" else "4"

/-! Concrete data used by the witness theorems. -/

/-- A complete row: treated, time after the cutoff `0`. -/
def wRow1 : Row := ⟨some 10, some "T", some 5, [some 1], [some 2]⟩

/-- A row with a missing value in an unused column only. -/
def wRow2 : Row := ⟨some 20, some "C", some (-3), [some 1], [none]⟩

/-- A two-row dataset, the second row having a missing cell. -/
def wDf : List Row := [wRow1, wRow2]

/-- The fit `did` produces on `wDf` with defaults. -/
def wDidFit : DidFit :=
  ⟨["const", "treatment", "post", "post_treat"], CovType.hc3, [wRow1],
    [1], [1], [1]⟩

/-- Event-study rows: a treated July observation, a control February
observation, a treated August observation — quarter labels `20223`,
`20221`, `20223`, deliberately out of chronological order. -/
def eRow1 : EsRow := ⟨1, "T", 2022, 7⟩

/-- See `eRow1`. -/
def eRow2 : EsRow := ⟨2, "C", 2022, 2⟩

/-- See `eRow1`. -/
def eRow3 : EsRow := ⟨3, "T", 2022, 8⟩

/-- The three-row event-study dataset. -/
def eDf : List EsRow := [eRow1, eRow2, eRow3]

/-- The caller's column names for the event-study dataset. -/
def eOrig : List String := ["PRICE", "CATEGORY", "START_TIME_UTC"]

/-- The fit `event_study_q` produces on `eDf` with baseline `20223`,
no controls, classical standard errors. -/
def eEsFit : EsFit :=
  ⟨["const", "treatment", "quarter_20221", "inter_20221"], CovType.classical⟩

/-- A model whose non-intercept coefficients are `a`, `b`, `treatment`,
`post_treat`. -/
def exLm : List Coef :=
  [⟨"const", 1, 0⟩, ⟨"a", 2, 1⟩, ⟨"b", 3, 1⟩, ⟨"treatment", 4, 2⟩,
    ⟨"post_treat", 5, 2⟩]

/-- A model with an intercept and one `post_treat` coefficient. -/
def exLm2 : List Coef := [⟨"const", 1, 0⟩, ⟨"post_treat", 2, 1⟩]

/- ======================================================================
   Theorems
   ====================================================================== -/

/-- Accumulator monotonicity of `Nat.toDigitsCore`: the output is never
shorter than the accumulator. -/
theorem toDigitsCore_length_mono (f : ℕ) :
    ∀ n l, l.length ≤ (Nat.toDigitsCore 10 f n l).length := by
  induction f with
  | zero => intro n l; simp [Nat.toDigitsCore]
  | succ f ih =>
    intro n l
    simp only [Nat.toDigitsCore]
    split
    · simp
    · exact le_trans (by simp) (ih (n / 10) _)

/-- Lower bound on the digit count produced by `Nat.toDigitsCore`. -/
theorem toDigitsCore_length_ge (k : ℕ) :
    ∀ f n l, 10 ^ k ≤ n → k < f →
      k + 1 + l.length ≤ (Nat.toDigitsCore 10 f n l).length := by
  induction k with
  | zero =>
    intro f n l hn hf
    match f, hf with
    | f + 1, _ =>
      simp only [Nat.toDigitsCore]
      split
      · simp only [List.length_cons]; omega
      · have := toDigitsCore_length_mono f (n / 10) (Nat.digitChar (n % 10) :: l)
        simp only [List.length_cons] at this
        omega
  | succ k ih =>
    intro f n l hn hf
    match f, hf with
    | f + 1, hf =>
      have h10 : (0:ℕ) < 10 := by norm_num
      have hdiv : 10 ^ k ≤ n / 10 := by
        rw [Nat.le_div_iff_mul_le h10]
        calc 10 ^ k * 10 = 10 ^ (k + 1) := (pow_succ 10 k).symm
        _ ≤ n := hn
      have hpow : 0 < 10 ^ k := Nat.pos_pow_of_pos k h10
      have hne : ¬ n / 10 = 0 := by omega
      simp only [Nat.toDigitsCore]
      rw [if_neg hne]
      have h2 := ih f (n / 10) (Nat.digitChar (n % 10) :: l) hdiv (Nat.lt_of_succ_lt_succ hf)
      simp only [List.length_cons] at h2
      omega

/-- A year between 1000 and 9999 prints as exactly four digits. -/
theorem repr_len_four (y : ℕ) (h1 : 1000 ≤ y) (h2 : y < 10000) :
    (Nat.repr y).length = 4 := by
  refine le_antisymm (Nat.repr_length y 4 (by norm_num) (by norm_num; omega)) ?_
  show 4 ≤ (Nat.toDigits 10 y).asString.length
  have : (Nat.toDigits 10 y).asString.length = (Nat.toDigits 10 y).length := rfl
  rw [this]
  unfold Nat.toDigits
  have := toDigitsCore_length_ge 3 (y + 1) y [] (by omega) (by omega)
  simpa using this

/-- Membership in the NA-dropped dataset: exactly the original rows
with no missing value in any column. -/
theorem mem_dropna (df : List Row) (r : Row) :
    r ∈ dropna df ↔ (r ∈ df ∧ NoMissing r) := by
  simp [dropna, List.mem_filter, rowComplete, NoMissing,
    Option.isSome_iff_ne_none, List.all_eq_true, and_assoc]

/-- On every success path of `did`, the estimation sample is the
NA-dropped dataset. -/
theorem did_sample_eq (df : List Row) (treat : String) (cutoff : ℤ)
    (vars_control : Option (List String)) (hc3_se : Bool) (fit : DidFit)
    (h : did df treat cutoff vars_control hc3_se = Except.ok fit) :
    fit.sample = dropna df := by
  cases vars_control with
  | none =>
    cases hc3_se with
    | false => exact Except.noConfusion h
    | true => injection h with h2; rw [← h2]
  | some cs =>
    cases hc3_se with
    | false => injection h with h2; rw [← h2]
    | true => injection h with h2; rw [← h2]

/-- C1: the claim that `did` with `vars_control = None` and
`hc3_se = False` succeeds is violated by the code: on that path no
branch ever assigns `lm`, and `return(lm)` raises `UnboundLocalError`
for every dataset. -/
theorem did_no_controls_classical_raises (df : List Row) (treat : String)
    (cutoff : ℤ) :
    did df treat cutoff none false = Except.error DidError.unboundLocal := rfl

/-- C2: before estimation, `did` drops every row containing a missing
value in any column of the table, so the fitted model's sample is
exactly the rows of the input with no missing value anywhere. -/
theorem did_drops_all_missing (df : List Row) (treat : String) (cutoff : ℤ)
    (vars_control : Option (List String)) (hc3_se : Bool) (fit : DidFit)
    (h : did df treat cutoff vars_control hc3_se = Except.ok fit) :
    ∀ r : Row, r ∈ fit.sample ↔ (r ∈ df ∧ NoMissing r) := by
  intro r
  rw [did_sample_eq df treat cutoff vars_control hc3_se fit h]
  exact mem_dropna df r

/-- Witness for C2 at a concrete dataset: the row with a missing cell
in an unused column is excluded from the sample. -/
theorem did_drops_all_missing_witness :
    wRow2 ∈ wDidFit.sample ↔ (wRow2 ∈ wDf ∧ NoMissing wRow2) :=
  did_drops_all_missing wDf "T" 0 none true wDidFit rfl wRow2

/-- C3: for every row surviving the NA-drop in `did`, the derived
columns satisfy `treatment = 1` iff the treatment-group cell equals the
supplied value, `post = 1` iff the time cell is at least the cutoff,
and `post_treat = treatment * post`; the fit's derived columns are
these functions mapped over the sample. -/
theorem did_derived_columns (df : List Row) (treat : String) (cutoff : ℤ)
    (vars_control : Option (List String)) (hc3_se : Bool) (fit : DidFit)
    (h : did df treat cutoff vars_control hc3_se = Except.ok fit) :
    fit.treatmentVals = fit.sample.map (treatmentCol treat) ∧
    fit.postVals = fit.sample.map (postCol cutoff) ∧
    fit.postTreatVals = fit.sample.map (postTreatCol cutoff treat) ∧
    ∀ r ∈ fit.sample, ∀ t v, r.timeVal = some t → r.treatVal = some v →
      treatmentCol treat r = (if v = treat then 1 else 0) ∧
      postCol cutoff r = (if t ≥ cutoff then 1 else 0) ∧
      postTreatCol cutoff treat r = treatmentCol treat r * postCol cutoff r := by
  have hvals : fit.treatmentVals = fit.sample.map (treatmentCol treat) ∧
      fit.postVals = fit.sample.map (postCol cutoff) ∧
      fit.postTreatVals = fit.sample.map (postTreatCol cutoff treat) := by
    cases vars_control with
    | none =>
      cases hc3_se with
      | false => exact Except.noConfusion h
      | true => injection h with h2; rw [← h2]; exact ⟨rfl, rfl, rfl⟩
    | some cs =>
      cases hc3_se with
      | false => injection h with h2; rw [← h2]; exact ⟨rfl, rfl, rfl⟩
      | true => injection h with h2; rw [← h2]; exact ⟨rfl, rfl, rfl⟩
  refine ⟨hvals.1, hvals.2.1, hvals.2.2, ?_⟩
  intro r _ t v ht hv
  refine ⟨?_, ?_, rfl⟩
  · simp [treatmentCol, hv]
  · simp [postCol, ht]

/-- Witness for C3 at a concrete surviving row. -/
theorem did_derived_columns_witness :
    treatmentCol "T" wRow1 = (if "T" = "T" then 1 else 0) ∧
    postCol 0 wRow1 = (if (5:ℤ) ≥ 0 then 1 else 0) ∧
    postTreatCol 0 "T" wRow1 = treatmentCol "T" wRow1 * postCol 0 wRow1 :=
  (did_derived_columns wDf "T" 0 none true wDidFit rfl).2.2.2
    wRow1 (by decide) 5 "T" rfl rfl

/-- C4: for months 1–12 the quarter bucket label is the 4-digit year
string followed by the quarter digit given by the spec's month ranges
(01–03 → 1, 04–06 → 2, 07–09 → 3, 10–12 → 4). -/
theorem event_study_quarter_bucketing (y m : ℕ)
    (hy1 : 1000 ≤ y) (hy2 : y < 10000) (hm1 : 1 ≤ m) (hm2 : m ≤ 12) :
    quarterLabel y m = toString y ++ quarterDigitSpec m ∧
      (toString y).length = 4 := by
  constructor
  · unfold quarterLabel
    congr 1
    interval_cases m <;> decide
  · exact repr_len_four y hy1 hy2

/-- Witness for C4 at the boundary months 3, 4, 12 and 1 of the next
year. -/
theorem event_study_quarter_bucketing_witness :
    (quarterLabel 2022 3 = toString 2022 ++ quarterDigitSpec 3 ∧
      (toString 2022).length = 4) ∧
    (quarterLabel 2022 4 = toString 2022 ++ quarterDigitSpec 4 ∧
      (toString 2022).length = 4) ∧
    (quarterLabel 2022 12 = toString 2022 ++ quarterDigitSpec 12 ∧
      (toString 2022).length = 4) ∧
    (quarterLabel 2023 1 = toString 2023 ++ quarterDigitSpec 1 ∧
      (toString 2023).length = 4) :=
  ⟨event_study_quarter_bucketing 2022 3 (by norm_num) (by norm_num)
      (by norm_num) (by norm_num),
    event_study_quarter_bucketing 2022 4 (by norm_num) (by norm_num)
      (by norm_num) (by norm_num),
    event_study_quarter_bucketing 2022 12 (by norm_num) (by norm_num)
      (by norm_num) (by norm_num),
    event_study_quarter_bucketing 2023 1 (by norm_num) (by norm_num)
      (by norm_num) (by norm_num)⟩

/-! ### Column-name lemmas -/

/-- The character data of a dummy column name. -/
theorem qcol_data (l : String) :
    (qcol l).data = 'q' :: 'u' :: 'a' :: 'r' :: 't' :: 'e' :: 'r' :: '_' :: l.data := rfl

/-- The character data of an interaction column name. -/
theorem icol_data (l : String) :
    (icol l).data = 'i' :: 'n' :: 't' :: 'e' :: 'r' :: '_' :: l.data := rfl

/-- `"quarter_" ++ ·` is injective. -/
theorem qcol_inj {a b : String} (h : qcol a = qcol b) : a = b := by
  have h2 := congrArg String.data h
  rw [qcol_data, qcol_data] at h2
  exact String.ext (by simpa using h2)

/-- `"inter_" ++ ·` is injective. -/
theorem icol_inj {a b : String} (h : icol a = icol b) : a = b := by
  have h2 := congrArg String.data h
  rw [icol_data, icol_data] at h2
  exact String.ext (by simpa using h2)

/-- Dummy and interaction column names never coincide. -/
theorem qcol_ne_icol (a b : String) : qcol a ≠ icol b := by
  intro h
  have h2 := congrArg (fun s => s.data.head?) h
  simp [qcol_data, icol_data] at h2

/-- A dummy column name is never `"treatment"`. -/
theorem qcol_ne_treatment (l : String) : qcol l ≠ "treatment" := by
  intro h
  have h2 := congrArg (fun s => s.data.head?) h
  simp [qcol_data] at h2

/-- A dummy column name is never `"month"`. -/
theorem qcol_ne_month (l : String) : qcol l ≠ "month" := by
  intro h
  have h2 := congrArg (fun s => s.data.head?) h
  simp [qcol_data] at h2

/-- An interaction column name is never `"treatment"`. -/
theorem icol_ne_treatment (l : String) : icol l ≠ "treatment" := by
  intro h
  have h2 := congrArg (fun s => s.data.head?) h
  simp [icol_data] at h2

/-- An interaction column name is never `"month"`. -/
theorem icol_ne_month (l : String) : icol l ≠ "month" := by
  intro h
  have h2 := congrArg (fun s => s.data.head?) h
  simp [icol_data] at h2

/-- A dummy column name is never `"const"`. -/
theorem qcol_ne_const (l : String) : qcol l ≠ "const" := by
  intro h
  have h2 := congrArg (fun s => s.data.head?) h
  simp [qcol_data] at h2

/-- An interaction column name is never `"const"`. -/
theorem icol_ne_const (l : String) : icol l ≠ "const" := by
  intro h
  have h2 := congrArg (fun s => s.data.head?) h
  simp [icol_data] at h2

/-- Sufficient condition for freshness of a column name: it is not
`"treatment"` or `"month"` and does not begin with `'q'` or `'i'`. -/
theorem freshName_of_head (c : String) (h1 : c ≠ "treatment")
    (h2 : c ≠ "month") (hq : c.data.head? ≠ some 'q')
    (hi : c.data.head? ≠ some 'i') : FreshName c := by
  refine ⟨h1, h2, fun l hl => hq ?_, fun l hl => hi ?_⟩
  · rw [hl, qcol_data]; rfl
  · rw [hl, icol_data]; rfl

/-! ### First-occurrence list lemmas -/

/-- `foAux` only looks at membership in `seen`. -/
theorem foAux_congr (l : List String) :
    ∀ s₁ s₂, (∀ a, a ∈ s₁ ↔ a ∈ s₂) → foAux s₁ l = foAux s₂ l := by
  induction l with
  | nil => intro s₁ s₂ _; rfl
  | cons x xs ih =>
    intro s₁ s₂ hs
    simp only [foAux]
    by_cases hx : x ∈ s₁
    · rw [if_pos hx, if_pos ((hs x).mp hx)]
      exact ih s₁ s₂ hs
    · rw [if_neg hx, if_neg (fun hc => hx ((hs x).mpr hc))]
      refine congrArg _ (ih _ _ fun a => ?_)
      simp only [List.mem_cons]
      exact or_congr Iff.rfl (hs a)

/-- The `unique()` fold, started from any seen-set, emits the
first-occurrence list of the not-yet-seen elements. -/
theorem foldl_unique_eq_foAux (l : List String) :
    ∀ acc : List String,
      l.foldl (fun seen x => if x ∈ seen then seen else seen ++ [x]) acc =
        acc ++ foAux acc l := by
  induction l with
  | nil => intro acc; simp [foAux]
  | cons x xs ih =>
    intro acc
    rw [List.foldl_cons]
    by_cases hx : x ∈ acc
    · rw [if_pos hx]
      rw [ih acc]
      simp only [foAux, if_pos hx]
    · rw [if_neg hx]
      rw [ih (acc ++ [x])]
      simp only [foAux, if_neg hx]
      rw [foAux_congr xs (acc ++ [x]) (x :: acc) (by intro a; simp [or_comm])]
      simp

/-- `pdUnique` computes exactly the spec's first-occurrence list. -/
theorem pdUnique_eq_firstOccurrences (l : List String) :
    pdUnique l = firstOccurrences l := by
  have := foldl_unique_eq_foAux l []
  simpa [pdUnique, firstOccurrences] using this

/-- Membership in `foAux`: the not-yet-seen elements of the list. -/
theorem mem_foAux (a : String) (l : List String) :
    ∀ seen, a ∈ foAux seen l ↔ (a ∈ l ∧ a ∉ seen) := by
  induction l with
  | nil => intro seen; simp [foAux]
  | cons x xs ih =>
    intro seen
    simp only [foAux]
    by_cases hx : x ∈ seen
    · rw [if_pos hx, ih seen]
      simp only [List.mem_cons]
      constructor
      · exact fun ⟨h1, h2⟩ => ⟨Or.inr h1, h2⟩
      · rintro ⟨h1 | h1, h2⟩
        · exact absurd hx (h1 ▸ h2)
        · exact ⟨h1, h2⟩
    · rw [if_neg hx]
      simp only [List.mem_cons, ih (x :: seen), List.mem_cons]
      constructor
      · rintro (rfl | ⟨h1, h2⟩)
        · exact ⟨Or.inl rfl, hx⟩
        · exact ⟨Or.inr h1, fun hc => h2 (Or.inr hc)⟩
      · rintro ⟨rfl | h1, h2⟩
        · exact Or.inl rfl
        · by_cases hax : a = x
          · exact Or.inl hax
          · exact Or.inr ⟨h1, fun hc => h2 (hc.resolve_left hax)⟩

/-- Membership in `pdUnique`: exactly the members of the list. -/
theorem mem_pdUnique (a : String) (l : List String) :
    a ∈ pdUnique l ↔ a ∈ l := by
  rw [pdUnique_eq_firstOccurrences, firstOccurrences, mem_foAux]
  simp

/-- `foAux` never repeats an element. -/
theorem nodup_foAux (l : List String) :
    ∀ seen, (foAux seen l).Nodup := by
  induction l with
  | nil => intro seen; simp [foAux]
  | cons x xs ih =>
    intro seen
    simp only [foAux]
    by_cases hx : x ∈ seen
    · rw [if_pos hx]; exact ih seen
    · rw [if_neg hx]
      refine List.nodup_cons.mpr ⟨?_, ih (x :: seen)⟩
      rw [mem_foAux]
      rintro ⟨_, h2⟩
      exact h2 (List.mem_cons_self x seen)

/-- The quarter list never repeats a label. -/
theorem nodup_pdUnique (l : List String) : (pdUnique l).Nodup := by
  rw [pdUnique_eq_firstOccurrences, firstOccurrences]
  exact nodup_foAux l []

/-- Insertion keeps exactly the old members plus the new element. -/
theorem mem_insertSorted (a x : String) (l : List String) :
    a ∈ insertSorted x l ↔ (a = x ∨ a ∈ l) := by
  induction l with
  | nil => simp [insertSorted]
  | cons y ys ih =>
    simp only [insertSorted]
    by_cases h : pyStrLt x y = true
    · rw [if_pos h]; simp
    · rw [if_neg h]
      simp only [List.mem_cons, ih]
      tauto

/-- Sorting keeps exactly the members. -/
theorem mem_sortStrings (a : String) (l : List String) :
    a ∈ sortStrings l ↔ a ∈ l := by
  induction l with
  | nil => simp [sortStrings]
  | cons x xs ih =>
    simp only [sortStrings, mem_insertSorted, ih, List.mem_cons]

/-- The dummy levels are exactly the labels occurring in the data. -/
theorem mem_dummyLevels (a : String) (l : List String) :
    a ∈ dummyLevels l ↔ a ∈ l := by
  rw [dummyLevels, mem_sortStrings, mem_pdUnique]

/-! ### Column-slicing lemmas -/

/-- `idxOf` on a list not containing the key skips the whole list. -/
theorem idxOf_append_of_not_mem {l₁ : List String} {a : String}
    (h : a ∉ l₁) (l₂ : List String) :
    idxOf (l₁ ++ l₂) a = l₁.length + idxOf l₂ a := by
  induction l₁ with
  | nil => simp [idxOf]
  | cons c cs ih =>
    simp only [List.cons_append, idxOf, List.append_eq]
    have hne : ¬ c = a := fun hc => h (by rw [hc]; exact List.mem_cons_self a cs)
    rw [if_neg hne, ih (fun hc => h (List.mem_cons_of_mem c hc))]
    simp only [List.length_cons]
    omega

/-- `idxOf` at the head. -/
theorem idxOf_cons_self (a : String) (l : List String) :
    idxOf (a :: l) a = 0 := by
  simp [idxOf]

/-- Label slicing from `a` up to `b` where `a` comes after `pre` and
`b` closes the list: the slice is everything from `a` to `b`
inclusive. -/
theorem locSpan_split (pre mid : List String) (a b : String)
    (ha : a ∉ pre) (hb1 : b ∉ pre) (hb2 : b ≠ a) (hb3 : b ∉ mid) :
    locSpan (pre ++ a :: mid ++ [b]) a b = some (a :: mid ++ [b]) := by
  have hshape : pre ++ a :: mid ++ [b] = pre ++ (a :: (mid ++ [b])) := by simp
  have hshape2 : pre ++ a :: mid ++ [b] = (pre ++ a :: mid) ++ [b] := by simp
  have hamem : a ∈ pre ++ a :: mid ++ [b] := by simp
  have hbmem : b ∈ pre ++ a :: mid ++ [b] := by simp
  rw [locSpan, if_pos ⟨hamem, hbmem⟩]
  have hia : idxOf (pre ++ a :: mid ++ [b]) a = pre.length := by
    rw [hshape, idxOf_append_of_not_mem ha, idxOf_cons_self]
    omega
  have hbn : b ∉ pre ++ a :: mid := by
    simp only [List.mem_append, List.mem_cons]
    rintro (h | h | h)
    · exact hb1 h
    · exact hb2 h
    · exact hb3 h
  have hib : idxOf (pre ++ a :: mid ++ [b]) b = (pre ++ a :: mid).length := by
    rw [hshape2, idxOf_append_of_not_mem hbn, idxOf_cons_self]
    omega
  rw [hia, hib]
  have hlen : (pre ++ a :: mid ++ [b]).length ≤ (pre ++ a :: mid).length + 1 := by
    simp only [List.length_append, List.length_cons, List.length_nil]
    omega
  rw [List.take_of_length_le hlen]
  rw [hshape, List.drop_left' rfl]
  simp

/-! ### Dataframe column structure of `event_study_q` -/

/-- Dropping the baseline pair leaves a list of fresh caller columns
untouched. -/
theorem filter_drop_fresh (l : List String) (b : String)
    (hf : ∀ c ∈ l, FreshName c) :
    l.filter (fun c => c ≠ qcol b ∧ c ≠ icol b) = l := by
  rw [List.filter_eq_self]
  intro c hc
  simp only [decide_eq_true_eq]
  exact ⟨(hf c hc).2.2.1 b, (hf c hc).2.2.2 b⟩

/-- Dropping the baseline pair leaves `month` and `treatment`. -/
theorem filter_drop_month_treatment (b : String) :
    (["month", "treatment"] : List String).filter
        (fun c => c ≠ qcol b ∧ c ≠ icol b) = ["month", "treatment"] := by
  rw [List.filter_eq_self]
  intro c hc
  simp only [decide_eq_true_eq]
  rcases List.mem_cons.mp hc with rfl | hc2
  · exact ⟨fun h => qcol_ne_month b h.symm, fun h => icol_ne_month b h.symm⟩
  · rcases List.mem_cons.mp hc2 with rfl | hc3
    · exact ⟨fun h => qcol_ne_treatment b h.symm, fun h => icol_ne_treatment b h.symm⟩
    · exact absurd hc3 (List.not_mem_nil c)

/-- Dropping the baseline pair from the dummy columns removes exactly
the baseline dummy. -/
theorem filter_drop_qcols (ds : List String) (b : String) :
    (ds.map qcol).filter (fun c => c ≠ qcol b ∧ c ≠ icol b) =
      (ds.filter (fun d => d ≠ b)).map qcol := by
  rw [List.filter_map]
  refine congrArg _ (List.filter_congr ?_)
  intro d _
  simp only [Function.comp_apply, decide_eq_decide]
  constructor
  · exact fun ⟨h1, _⟩ hdb => h1 (by rw [hdb])
  · exact fun hdb => ⟨fun h => hdb (qcol_inj h), fun h => qcol_ne_icol d b h⟩

/-- Dropping the baseline pair from the interaction columns removes
exactly the baseline interaction. -/
theorem filter_drop_icols (qs : List String) (b : String) :
    (qs.map icol).filter (fun c => c ≠ qcol b ∧ c ≠ icol b) =
      (qs.filter (fun q => q ≠ b)).map icol := by
  rw [List.filter_map]
  refine congrArg _ (List.filter_congr ?_)
  intro q _
  simp only [Function.comp_apply, decide_eq_decide]
  constructor
  · exact fun ⟨_, h2⟩ hqb => h2 (by rw [hqb])
  · exact fun hqb => ⟨fun h => (qcol_ne_icol b q) h.symm, fun h => hqb (icol_inj h)⟩

/-- The dataframe columns after the baseline drop. -/
theorem event_study_cols2 (orig : List String) (dms qls : List String)
    (b : String) (hfresh : ∀ c ∈ orig, FreshName c) :
    (orig ++ ["month", "treatment"] ++ dms.map qcol ++ qls.map icol).filter
        (fun c => c ≠ qcol b ∧ c ≠ icol b) =
      orig ++ ["month", "treatment"] ++
        (dms.filter (fun d => d ≠ b)).map qcol ++
        (qls.filter (fun q => q ≠ b)).map icol := by
  simp only [List.filter_append]
  rw [filter_drop_fresh orig b hfresh, filter_drop_month_treatment,
    filter_drop_qcols, filter_drop_icols]

/-- A dummy column name occurs among the dataframe columns exactly when
its label is a dummy level. -/
theorem qcol_mem_cols (orig : List String) (hfresh : ∀ c ∈ orig, FreshName c)
    (ds qs : List String) (b : String) :
    qcol b ∈ orig ++ ["month", "treatment"] ++ ds.map qcol ++ qs.map icol ↔
      b ∈ ds := by
  simp only [List.mem_append, List.mem_cons, List.mem_map, List.not_mem_nil,
    or_false]
  constructor
  · rintro (((hm | hm | hm) | ⟨d, hd, hdq⟩) | ⟨q, hq, hqi⟩)
    · exact absurd rfl ((hfresh _ hm).2.2.1 b)
    · exact absurd hm (qcol_ne_month b)
    · exact absurd hm (qcol_ne_treatment b)
    · exact (qcol_inj hdq) ▸ hd
    · exact absurd hqi.symm (qcol_ne_icol b q)
  · exact fun hb => Or.inl (Or.inr ⟨b, hb, rfl⟩)

/-- An interaction column name occurs among the dataframe columns
exactly when its label is in the quarter list. -/
theorem icol_mem_cols (orig : List String) (hfresh : ∀ c ∈ orig, FreshName c)
    (ds qs : List String) (b : String) :
    icol b ∈ orig ++ ["month", "treatment"] ++ ds.map qcol ++ qs.map icol ↔
      b ∈ qs := by
  simp only [List.mem_append, List.mem_cons, List.mem_map, List.not_mem_nil,
    or_false]
  constructor
  · rintro (((hm | hm | hm) | ⟨d, hd, hdq⟩) | ⟨q, hq, hqi⟩)
    · exact absurd rfl ((hfresh _ hm).2.2.2 b)
    · exact absurd hm (icol_ne_month b)
    · exact absurd hm (icol_ne_treatment b)
    · exact absurd hdq (qcol_ne_icol d b)
    · exact (icol_inj hqi) ▸ hq
  · exact fun hb => Or.inr ⟨b, hb, rfl⟩

/-- Characterization of every success of `event_study_q`: the quarter
list is the first-occurrence unique list, the baseline is an observed
label distinct from the last observed quarter, and the regressors are
the constant, the controls, `treatment`, the non-baseline dummies and
the non-baseline interactions. -/
theorem event_study_q_ok (orig : List String) (df : List EsRow)
    (treat baseline : String) (vars_control : Option (List String))
    (hc3_se : Bool) (fit : EsFit) (ql : List String)
    (hfresh : ∀ c ∈ orig, FreshName c)
    (h : event_study_q orig df treat baseline vars_control hc3_se =
      Except.ok (fit, ql)) :
    ql = pdUnique (labelsOf df) ∧
    baseline ∈ labelsOf df ∧
    ∃ lastq, ql.getLast? = some lastq ∧ baseline ≠ lastq ∧
      fit.regressors = "const" :: (vars_control.getD [] ++
        ("treatment" ::
          (((dummyLevels (labelsOf df)).filter (fun d => d ≠ baseline)).map qcol ++
            ((pdUnique (labelsOf df)).filter (fun q => q ≠ baseline)).map icol))) ∧
      fit.covType = (if hc3_se then CovType.hc3 else CovType.classical) := by
  simp only [event_study_q] at h
  split at h
  case isFalse hcond => exact Except.noConfusion h
  case isTrue hcond =>
  split at h
  case h_1 hlast => exact Except.noConfusion h
  case h_2 lastq hlast =>
  split at h
  case h_1 hspan => exact Except.noConfusion h
  case h_2 span hspan =>
  injection h with h2
  obtain ⟨hfit, hql⟩ := Prod.mk.inj h2
  have hbmem : baseline ∈ labelsOf df := by
    have := (qcol_mem_cols orig hfresh (dummyLevels (labelsOf df))
      (pdUnique (labelsOf df)) baseline).mp hcond.1
    exact (mem_dummyLevels baseline (labelsOf df)).mp this
  have hne : baseline ≠ lastq := by
    rintro rfl
    have hnotmem : icol baseline ∉
        (orig ++ ["month", "treatment"] ++
          (dummyLevels (labelsOf df)).map qcol ++
          (pdUnique (labelsOf df)).map icol).filter
          (fun c => c ≠ qcol baseline ∧ c ≠ icol baseline) := by
      intro hmem
      have := (List.mem_filter.mp hmem).2
      simp only [decide_eq_true_eq] at this
      exact this.2 rfl
    rw [locSpan, if_neg (fun hc => hnotmem hc.2)] at hspan
    exact Option.noConfusion hspan
  have hlq : lastq ∈ List.getLast? (pdUnique (labelsOf df)) :=
    Option.mem_def.mpr hlast
  have hqlshape := List.dropLast_append_getLast? lastq hlq
  have hnodup := nodup_pdUnique (labelsOf df)
  have hlastnotmem : lastq ∉ (pdUnique (labelsOf df)).dropLast := by
    rw [← hqlshape] at hnodup
    obtain ⟨-, -, hdisj⟩ := List.nodup_append.mp hnodup
    exact fun hm => hdisj hm (List.mem_singleton_self lastq)
  have hlne : lastq ≠ baseline := Ne.symm hne
  have hfsplit : (pdUnique (labelsOf df)).filter (fun q => q ≠ baseline) =
      ((pdUnique (labelsOf df)).dropLast.filter (fun q => q ≠ baseline)) ++
        [lastq] := by
    conv_lhs => rw [← hqlshape]
    rw [List.filter_append]
    congr 1
    simp [hlne]
  have hcols2 := event_study_cols2 orig (dummyLevels (labelsOf df))
    (pdUnique (labelsOf df)) baseline hfresh
  have hshape :
      (orig ++ ["month", "treatment"] ++
        (dummyLevels (labelsOf df)).map qcol ++
        (pdUnique (labelsOf df)).map icol).filter
        (fun c => c ≠ qcol baseline ∧ c ≠ icol baseline) =
      (orig ++ ["month"]) ++ "treatment" ::
        (((dummyLevels (labelsOf df)).filter (fun d => d ≠ baseline)).map qcol ++
          ((pdUnique (labelsOf df)).dropLast.filter
            (fun q => q ≠ baseline)).map icol) ++ [icol lastq] := by
    rw [hcols2, hfsplit]
    simp [List.append_assoc]
  have ht1 : "treatment" ∉ orig ++ ["month"] := by
    simp only [List.mem_append, List.mem_cons, List.not_mem_nil, or_false]
    rintro (hm | hm)
    · exact (hfresh _ hm).1 rfl
    · exact absurd hm.symm (by decide)
  have ht2 : icol lastq ∉ orig ++ ["month"] := by
    simp only [List.mem_append, List.mem_cons, List.not_mem_nil, or_false]
    rintro (hm | hm)
    · exact (hfresh _ hm).2.2.2 lastq rfl
    · exact icol_ne_month lastq hm
  have ht3 : icol lastq ≠ "treatment" := icol_ne_treatment lastq
  have ht4 : icol lastq ∉
      ((dummyLevels (labelsOf df)).filter (fun d => d ≠ baseline)).map qcol ++
        ((pdUnique (labelsOf df)).dropLast.filter
          (fun q => q ≠ baseline)).map icol := by
    simp only [List.mem_append, List.mem_map]
    rintro (⟨d, _, hdq⟩ | ⟨q, hq, hqi⟩)
    · exact qcol_ne_icol d lastq hdq
    · exact hlastnotmem ((icol_inj hqi) ▸ List.mem_of_mem_filter hq)
  have hsplit := locSpan_split (orig ++ ["month"])
    (((dummyLevels (labelsOf df)).filter (fun d => d ≠ baseline)).map qcol ++
      ((pdUnique (labelsOf df)).dropLast.filter
        (fun q => q ≠ baseline)).map icol)
    "treatment" (icol lastq) ht1 ht2 ht3 ht4
  rw [hshape] at hspan
  have hspv : span = "treatment" ::
      (((dummyLevels (labelsOf df)).filter (fun d => d ≠ baseline)).map qcol ++
        ((pdUnique (labelsOf df)).dropLast.filter
          (fun q => q ≠ baseline)).map icol) ++ [icol lastq] :=
    Option.some.inj (hspan.symm.trans hsplit)
  refine ⟨hql.symm, hbmem, lastq, ?_, hne, ?_, ?_⟩
  · rw [← hql]; exact hlast
  · rw [← hfit]
    show "const" :: (vars_control.getD [] ++ span) = _
    rw [hspv, hfsplit]
    simp [List.append_assoc]
  · rw [← hfit]

/-- The witness dataset's caller columns are fresh. -/
theorem eOrig_fresh : ∀ c ∈ eOrig, FreshName c := by
  intro c hc
  simp only [eOrig, List.mem_cons, List.not_mem_nil, or_false] at hc
  rcases hc with rfl | rfl | rfl <;>
    exact freshName_of_head _ (by decide) (by decide) (by decide) (by decide)

/-- C5: whenever `event_study_q` returns, its `quarterlist` is the
sequence of distinct quarter labels in order of first occurrence in
input row order — not sorted. -/
theorem event_study_quarterlist_first_occurrence (orig : List String)
    (df : List EsRow) (treat baseline : String)
    (vars_control : Option (List String)) (hc3_se : Bool)
    (fit : EsFit) (ql : List String)
    (h : event_study_q orig df treat baseline vars_control hc3_se =
      Except.ok (fit, ql)) :
    ql = firstOccurrences (labelsOf df) := by
  simp only [event_study_q] at h
  split at h
  case isFalse => exact Except.noConfusion h
  case isTrue hcond =>
  split at h
  case h_1 hlast => exact Except.noConfusion h
  case h_2 lastq hlast =>
  split at h
  case h_1 hspan => exact Except.noConfusion h
  case h_2 span hspan =>
  injection h with h2
  obtain ⟨-, hql⟩ := Prod.mk.inj h2
  rw [← hql, pdUnique_eq_firstOccurrences]

/-- Witness for C5 on a dataset whose timestamps are out of
chronological order: the quarter list is `["20223", "20221"]`, the
first-occurrence order, not the sorted order. -/
theorem event_study_quarterlist_witness :
    (["20223", "20221"] : List String) = firstOccurrences (labelsOf eDf) :=
  event_study_quarterlist_first_occurrence eOrig eDf "T" "20223" none false
    eEsFit ["20223", "20221"] rfl

/-- C6: on every success of `event_study_q`, the regressor set contains
neither `quarter_<baseline>` nor `inter_<baseline>`, and apart from the
intercept and the supplied controls it is exactly `treatment`, the
non-baseline quarter dummies, and the non-baseline interactions. -/
theorem event_study_baseline_omitted (orig : List String) (df : List EsRow)
    (treat baseline : String) (vars_control : Option (List String))
    (hc3_se : Bool) (fit : EsFit) (ql : List String)
    (hfresh : ∀ c ∈ orig, FreshName c)
    (hctrl : ∀ cs, vars_control = some cs → ∀ c ∈ cs, FreshName c)
    (h : event_study_q orig df treat baseline vars_control hc3_se =
      Except.ok (fit, ql)) :
    qcol baseline ∉ fit.regressors ∧ icol baseline ∉ fit.regressors ∧
    fit.regressors = "const" :: (vars_control.getD [] ++
      ("treatment" ::
        (((dummyLevels (labelsOf df)).filter (fun d => d ≠ baseline)).map qcol ++
          ((pdUnique (labelsOf df)).filter (fun q => q ≠ baseline)).map icol))) := by
  obtain ⟨-, -, lastq, -, -, hreg, -⟩ :=
    event_study_q_ok orig df treat baseline vars_control hc3_se fit ql hfresh h
  refine ⟨?_, ?_, hreg⟩
  · rw [hreg]
    intro hmem
    rcases List.mem_cons.mp hmem with hc | hmem2
    · exact qcol_ne_const baseline hc
    rcases List.mem_append.mp hmem2 with hc | hmem3
    · cases vars_control with
      | none => exact absurd hc (List.not_mem_nil _)
      | some cs => exact ((hctrl cs rfl _ hc).2.2.1 baseline) rfl
    rcases List.mem_cons.mp hmem3 with hc | hmem4
    · exact qcol_ne_treatment baseline hc
    rcases List.mem_append.mp hmem4 with hc | hc
    · obtain ⟨d, hd, hdq⟩ := List.mem_map.mp hc
      have hdb : d = baseline := qcol_inj hdq
      subst hdb
      have h2 := (List.mem_filter.mp hd).2
      simp at h2
    · obtain ⟨q, hq, hqi⟩ := List.mem_map.mp hc
      exact qcol_ne_icol baseline q hqi.symm
  · rw [hreg]
    intro hmem
    rcases List.mem_cons.mp hmem with hc | hmem2
    · exact icol_ne_const baseline hc
    rcases List.mem_append.mp hmem2 with hc | hmem3
    · cases vars_control with
      | none => exact absurd hc (List.not_mem_nil _)
      | some cs => exact ((hctrl cs rfl _ hc).2.2.2 baseline) rfl
    rcases List.mem_cons.mp hmem3 with hc | hmem4
    · exact icol_ne_treatment baseline hc
    rcases List.mem_append.mp hmem4 with hc | hc
    · obtain ⟨d, hd, hdq⟩ := List.mem_map.mp hc
      exact qcol_ne_icol d baseline hdq
    · obtain ⟨q, hq, hqi⟩ := List.mem_map.mp hc
      have hqb : q = baseline := icol_inj hqi
      subst hqb
      have h2 := (List.mem_filter.mp hq).2
      simp at h2

/-- Witness for C6 on the concrete dataset, baseline `20223`. -/
theorem event_study_baseline_omitted_witness :
    qcol "20223" ∉ eEsFit.regressors ∧ icol "20223" ∉ eEsFit.regressors ∧
    eEsFit.regressors = "const" :: ((none : Option (List String)).getD [] ++
      ("treatment" ::
        (((dummyLevels (labelsOf eDf)).filter (fun d => d ≠ "20223")).map qcol ++
          ((pdUnique (labelsOf eDf)).filter (fun q => q ≠ "20223")).map icol))) :=
  event_study_baseline_omitted eOrig eDf "T" "20223" none false eEsFit
    ["20223", "20221"] eOrig_fresh (fun _ hcs => Option.noConfusion hcs) rfl

/-- C7: a baseline quarter label not observed in the data makes
`event_study_q` fail at the baseline-column drop (`KeyError`) instead
of returning a fitted model. -/
theorem event_study_missing_baseline_errors (orig : List String)
    (df : List EsRow) (treat baseline : String)
    (vars_control : Option (List String)) (hc3_se : Bool)
    (hfresh : ∀ c ∈ orig, FreshName c)
    (hb : baseline ∉ labelsOf df) :
    event_study_q orig df treat baseline vars_control hc3_se =
      Except.error EsError.dropMissing := by
  simp only [event_study_q]
  split
  case isTrue hcond =>
    exact absurd ((mem_dummyLevels baseline (labelsOf df)).mp
      ((qcol_mem_cols orig hfresh _ _ baseline).mp hcond.1)) hb
  case isFalse => rfl

/-- Witness for C7: baseline `20219` is not observed. -/
theorem event_study_missing_baseline_witness :
    event_study_q eOrig eDf "T" "20219" none true =
      Except.error EsError.dropMissing :=
  event_study_missing_baseline_errors eOrig eDf "T" "20219" none true
    eOrig_fresh (by decide)

/-- C10: when the baseline equals the last label of the quarter list,
the baseline interaction column is dropped and then used as the stop
label of the column span, so `event_study_q` fails (`KeyError` on the
`.loc` slice) even though the baseline is observed. -/
theorem event_study_last_baseline_errors (orig : List String)
    (df : List EsRow) (treat : String) (vars_control : Option (List String))
    (hc3_se : Bool) (baseline : String)
    (hfresh : ∀ c ∈ orig, FreshName c)
    (hlast : (pdUnique (labelsOf df)).getLast? = some baseline) :
    event_study_q orig df treat baseline vars_control hc3_se =
      Except.error EsError.spanMissing := by
  have hmemql : baseline ∈ pdUnique (labelsOf df) := by
    have hsh := List.dropLast_append_getLast? baseline (Option.mem_def.mpr hlast)
    rw [← hsh]; simp
  have hmem : baseline ∈ labelsOf df := (mem_pdUnique _ _).mp hmemql
  have hcondq : qcol baseline ∈ orig ++ ["month", "treatment"] ++
      (dummyLevels (labelsOf df)).map qcol ++
      (pdUnique (labelsOf df)).map icol :=
    (qcol_mem_cols orig hfresh _ _ baseline).mpr
      ((mem_dummyLevels _ _).mpr hmem)
  have hcondi : icol baseline ∈ orig ++ ["month", "treatment"] ++
      (dummyLevels (labelsOf df)).map qcol ++
      (pdUnique (labelsOf df)).map icol :=
    (icol_mem_cols orig hfresh _ _ baseline).mpr hmemql
  have hnone : locSpan
      ((orig ++ ["month", "treatment"] ++
        (dummyLevels (labelsOf df)).map qcol ++
        (pdUnique (labelsOf df)).map icol).filter
        (fun c => c ≠ qcol baseline ∧ c ≠ icol baseline))
      "treatment" (icol baseline) = none := by
    rw [locSpan, if_neg]
    rintro ⟨-, hm⟩
    have h2 := (List.mem_filter.mp hm).2
    simp only [decide_eq_true_eq] at h2
    exact h2.2 rfl
  simp only [event_study_q]
  split
  case isFalse hc => exact absurd ⟨hcondq, hcondi⟩ hc
  case isTrue =>
  split
  case h_1 heq => exact Option.noConfusion (hlast.symm.trans heq)
  case h_2 lastq heq =>
  have hlb : lastq = baseline := Option.some.inj (heq.symm.trans hlast)
  subst hlb
  split
  case h_1 => rfl
  case h_2 span heq2 =>
  rw [hnone] at heq2
  exact Option.noConfusion heq2

/-- Witness for C10: baseline `20221` is the last observed quarter of
the concrete dataset, and the call fails. -/
theorem event_study_last_baseline_witness :
    event_study_q eOrig eDf "T" "20221" none true =
      Except.error EsError.spanMissing :=
  event_study_last_baseline_errors eOrig eDf "T" none true "20221"
    eOrig_fresh rfl

/-! ### Coefficient-plotter lemmas -/

/-- The selected categories of the chart: the non-intercept
coefficients whose name matches the filter, in model order. -/
theorem coefplot_vars (lm : List Coef) (xticklab : List String)
    (xlab ylab : String) (start : List String) :
    (coefplot lm xticklab xlab ylab start).vars =
      ((lm.drop 1).filter (fun c => startMatches start c.name)).map
        (fun c => c.name) := by
  simp only [coefplot]
  rw [← List.map_drop, List.filter_map, List.map_map]
  rfl

/-- The whisker half-widths of the chart: coefficient minus lower
confidence bound for each selected coefficient. -/
theorem coefplot_errs (lm : List Coef) (xticklab : List String)
    (xlab ylab : String) (start : List String) :
    (coefplot lm xticklab xlab ylab start).errs =
      ((lm.drop 1).filter (fun c => startMatches start c.name)).map
        (fun c => c.coef - c.ciLower) := by
  simp only [coefplot]
  rw [← List.map_drop, List.filter_map, List.map_map]
  rfl

/-- C9: `coefplot` always drops the first (intercept) coefficient; a
prefix filter selects exactly the remaining coefficients whose name
starts with the prefix (on `{a, b, treatment, post_treat}` with prefix
`"post"`, exactly `post_treat`); with the default empty prefix it
selects all non-intercept coefficients in model order; each whisker
half-width is the coefficient minus its lower confidence bound. -/
theorem coefplot_filtering (lm : List Coef) (xticklab : List String)
    (xlab ylab : String) (p : String) :
    (coefplot lm xticklab xlab ylab [p]).vars =
      ((lm.drop 1).filter (fun c => pyStartsWith c.name p)).map
        (fun c => c.name) ∧
    (coefplot lm xticklab xlab ylab [""]).vars =
      (lm.drop 1).map (fun c => c.name) ∧
    (coefplot lm xticklab xlab ylab [p]).errs =
      ((lm.drop 1).filter (fun c => pyStartsWith c.name p)).map
        (fun c => c.coef - c.ciLower) ∧
    (coefplot exLm [] "" "" ["post"]).vars = ["post_treat"] := by
  refine ⟨?_, ?_, ?_, by decide⟩
  · rw [coefplot_vars]
    refine congrArg _ (List.filter_congr ?_)
    intro c _
    simp [startMatches]
  · rw [coefplot_vars]
    have hall : (lm.drop 1).filter
        (fun c => startMatches [""] c.name) = lm.drop 1 := by
      rw [List.filter_eq_self]
      intro c _
      simp [startMatches, pyStartsWith, List.isPrefixOf]
    rw [hall]
  · rw [coefplot_errs]
    refine congrArg _ (List.filter_congr ?_)
    intro c _
    simp [startMatches]

/-- Reading a list back off its index range. -/
theorem range_map_getD (tl : List String) :
    (List.range tl.length).map (fun i => tl.getD i "") = tl := by
  apply List.ext_getElem
  · simp
  · intro i h1 h2
    simp [List.getD_eq_getElem?_getD, List.getElem?_eq_getElem, h2]

/-- C8 counterexample: with no tick labels supplied, the rendered
x-axis labels are not the raw coefficient names — the default empty
string is passed to `set_xticklabels`, which blanks every label. -/
theorem coefplot_default_labels_counterexample :
    (coefplot exLm2 [] "" "" [""]).vars = ["post_treat"] ∧
    (coefplot exLm2 [] "" "" [""]).ticklabels = [""] ∧
    (coefplot exLm2 [] "" "" [""]).ticklabels ≠
      (coefplot exLm2 [] "" "" [""]).vars := by
  refine ⟨rfl, rfl, ?_⟩
  decide

/-- C8 amended: `coefplot` always calls `set_xticklabels`; with the
empty default every rendered label is blank (not the raw coefficient
names), and caller-supplied tick labels replace the category labels
positionally when their count matches the selected coefficients. -/
theorem coefplot_ticklabels (lm : List Coef) (xlab ylab : String)
    (start : List String) :
    (coefplot lm [] xlab ylab start).ticklabels =
      List.replicate (coefplot lm [] xlab ylab start).vars.length "" ∧
    (∀ tl : List String, ∀ xl yl : String,
      tl.length = (coefplot lm tl xl yl start).vars.length →
      (coefplot lm tl xl yl start).ticklabels = tl) := by
  constructor
  · simp only [coefplot, List.length_map]
    have hf : (fun i => List.getD ([] : List String) i "") = fun _ : ℕ => "" :=
      funext fun i => by simp
    rw [hf]
    simp
  · intro tl xl yl hl
    simp only [coefplot, List.length_map] at hl ⊢
    rw [← hl, range_map_getD]

/-- Witness for C8: a supplied tick label replaces the category label
positionally. -/
theorem coefplot_ticklabels_witness :
    (coefplot exLm2 ["TT"] "" "" [""]).ticklabels = ["TT"] :=
  (coefplot_ticklabels exLm2 "" "" [""]).2 ["TT"] "" "" (by decide)

end CausalTools
